import Mathlib

/-!
Verification of the search and auth core of the song lyric manager server
(src/server.js). Strings are embedded as lists of characters; JavaScript
functions are translated into executable Lean definitions, and the claims of
the specification are settled as theorems about those definitions.
-/

/-! ### Text normalization (src/server.js, normalizeWhitespace) -/

/-- Models the JavaScript regular-expression character class for whitespace
(the class written backslash-s): space, tab, LF, VT, FF, CR, NBSP, and the
Unicode space separators and line separators matched by that class. -/
def jsWhitespace (c : Char) : Bool :=
  c.toNat == 0x20 || c.toNat == 0x09 || c.toNat == 0x0a || c.toNat == 0x0b ||
  c.toNat == 0x0c || c.toNat == 0x0d || c.toNat == 0xa0 || c.toNat == 0x1680 ||
  (0x2000 ≤ c.toNat && c.toNat ≤ 0x200a) || c.toNat == 0x2028 || c.toNat == 0x2029 ||
  c.toNat == 0x202f || c.toNat == 0x205f || c.toNat == 0x3000 || c.toNat == 0xfeff

/-- Replacement of every maximal whitespace run by a single space, i.e. the
effect of the source's global replace of one-or-more whitespace characters
with a single space character. The boolean flag records whether the scan is
currently inside a whitespace run (runs emit one space at their first
character). -/
def collapseAux : Bool → List Char → List Char
  | _, [] => []
  | inRun, c :: rest =>
    if jsWhitespace c then
      if inRun then collapseAux true rest
      else ' ' :: collapseAux true rest
    else c :: collapseAux false rest

/-- Removal of leading whitespace, the front half of String.prototype.trim. -/
def dropLeadWS (l : List Char) : List Char := l.dropWhile jsWhitespace

/-- Removal of trailing whitespace, the back half of String.prototype.trim. -/
def dropTrailWS (l : List Char) : List Char := (l.reverse.dropWhile jsWhitespace).reverse

/-- Models String.prototype.trim: drop whitespace at both ends. -/
def jsTrim (l : List Char) : List Char := dropTrailWS (dropLeadWS l)

/-- Embeds normalizeWhitespace (src/server.js:460-462): collapse every
whitespace run to a single space, then trim. -/
def normalizeWhitespace (text : List Char) : List Char := jsTrim (collapseAux false text)

/-- Models String.prototype.toLowerCase character-wise; Char.toLower agrees
with the JavaScript lowercasing on the ASCII range used by the matcher. -/
def jsToLower (l : List Char) : List Char := l.map Char.toLower

/-- The combination normalizeWhitespace(x).toLowerCase() that fuzzyMatch and
exactMatch (src/server.js:493-495, 536-539) apply to both of their inputs. -/
def normalizeLower (text : List Char) : List Char := jsToLower (normalizeWhitespace text)

/-- Models String.prototype.includes: the needle occurs contiguously inside
the haystack. -/
def includes (haystack needle : List Char) : Bool := decide (needle <:+: haystack)

/-! ### Levenshtein distance (src/server.js, levenshteinDistance) -/

/-- The recurrence filled into the dynamic-programming matrix of
levenshteinDistance (src/server.js:465-490): row/column zero hold the string
lengths, equal characters copy the diagonal, and otherwise one plus the
minimum of substitution, insertion and deletion. The fuel argument makes the
recursion structural; levenshteinDistance supplies enough fuel for it never
to run out. -/
def levAux : Nat → List Char → List Char → Nat
  | _, [], b => b.length
  | _, a :: as, [] => (a :: as).length
  | fuel + 1, x :: xs, y :: ys =>
    if x = y then levAux fuel xs ys
    else 1 + min (levAux fuel xs ys) (min (levAux fuel (x :: xs) ys) (levAux fuel xs (y :: ys)))
  | 0, _ :: _, _ :: _ => 0

/-- Embeds levenshteinDistance (src/server.js:465-490). -/
def levenshteinDistance (a b : List Char) : Nat := levAux (a.length + b.length) a b

/-! ### Fuzzy and exact matching (src/server.js, fuzzyMatch / exactMatch) -/

/-- The per-query-word error allowance of fuzzyMatch (src/server.js:514):
Math.max(1, Math.floor(queryWord.length * 0.15)). Since 0.15 = 3/20 and the
double-precision product never rounds across an integer for these lengths,
the floor equals natural-number division of 3 times the length by 20. -/
def maxDistance (queryWord : List Char) : Nat := max 1 (queryWord.length * 3 / 20)

/-- The body of the inner textWords.some callback of fuzzyMatch
(src/server.js:516-531): the text word contains the query word, or the two
words differ in length by at most 2 and their Levenshtein distance is within
maxDistance. -/
def wordFuzzyMatch (queryWord textWord : List Char) : Bool :=
  if includes textWord queryWord then true
  else if ((textWord.length : Int) - (queryWord.length : Int)).natAbs ≤ 2 then
    decide (levenshteinDistance queryWord textWord ≤ maxDistance queryWord)
  else false

/-- Splitting on single spaces and discarding empty tokens, as done by
split(' ').filter(w => w.length > 0) in fuzzyMatch (src/server.js:508-509). -/
def splitWords (l : List Char) : List (List Char) :=
  (l.splitOn ' ').filter fun w => decide (0 < w.length)

/-- Embeds fuzzyMatch (src/server.js:493-533). -/
def fuzzyMatch (text query : List Char) : Bool :=
  let normalizedText := normalizeLower text
  let normalizedQuery := normalizeLower query
  if includes normalizedText normalizedQuery then true
  else if normalizedQuery.length ≤ 2 then false
  else
    let queryWords := splitWords normalizedQuery
    let textWords := splitWords normalizedText
    queryWords.all fun queryWord => textWords.any fun textWord => wordFuzzyMatch queryWord textWord

/-- Embeds exactMatch (src/server.js:536-540). -/
def exactMatch (text query : List Char) : Bool :=
  includes (normalizeLower text) (normalizeLower query)

/-! ### Query parsing (src/server.js, parseSearchQuery) -/

/-- The two query kinds produced by parseSearchQuery. -/
inductive QueryType where
  | exact : QueryType
  | fuzzy : QueryType
deriving DecidableEq, Repr

/-- The result record of parseSearchQuery. -/
structure ParsedQuery where
  type : QueryType
  term : List Char
deriving DecidableEq, Repr

/-- The line terminators that the dot of a JavaScript regular expression
does not match: LF, CR, LINE SEPARATOR, PARAGRAPH SEPARATOR. -/
def isLineTerminator (c : Char) : Bool :=
  c.toNat == 0x0a || c.toNat == 0x0d || c.toNat == 0x2028 || c.toNat == 0x2029

/-- Embeds parseSearchQuery (src/server.js:543-549). The anchored pattern
quote, one-or-more dots, quote matches exactly the strings of length at
least 3 that start and end with a double quote and whose interior contains
no line terminator (dot does not match line terminators); the capture is the
interior. -/
def parseSearchQuery (query : List Char) : ParsedQuery :=
  if 3 ≤ query.length ∧ query.head? = some '"' ∧ query.getLast? = some '"' ∧
      ∀ c ∈ (query.drop 1).dropLast, isLineTerminator c = false
  then ⟨QueryType.exact, (query.drop 1).dropLast⟩
  else ⟨QueryType.fuzzy, query⟩

/-! ### Library sorting (src/server.js, librarySortKey / sortSongs) -/

/-- Matching of one leading article alternative of the anchored
case-insensitive pattern the-or-a-or-an followed by whitespace: if the text
starts (case-insensitively) with the article and at least one whitespace
character follows, the article and the whole whitespace run it heads are
removed (the one-or-more whitespace is greedy and nothing follows it in the
pattern). -/
def matchArticle (article : List Char) (l : List Char) : Option (List Char) :=
  let rest := l.drop article.length
  if (l.take article.length).map Char.toLower = article ∧ rest.head?.map jsWhitespace = some true
  then some (rest.dropWhile jsWhitespace)
  else none

/-- Removal of a single leading article as performed by the replace call in
librarySortKey (src/server.js:147-150), trying the alternatives in the
pattern's order. -/
def stripLeadingArticle (title : List Char) : List Char :=
  match matchArticle ['t', 'h', 'e'] title with
  | some rest => rest
  | none =>
    match matchArticle ['a'] title with
    | some rest => rest
    | none =>
      match matchArticle ['a', 'n'] title with
      | some rest => rest
      | none => title

/-- Embeds librarySortKey (src/server.js:147-150): strip one leading article,
then lowercase. -/
def librarySortKey (title : List Char) : List Char := jsToLower (stripLeadingArticle title)

/-- A song record as consumed by the search route: an identifier and the two
searchable text fields. -/
structure Song where
  id : String
  title : List Char
  lyrics : List Char

/-- Lexicographic comparison of character lists by code point; models the
total order realized by localeCompare in the sortSongs comparator. -/
def lexLe : List Char → List Char → Bool
  | [], _ => true
  | _ :: _, [] => false
  | x :: xs, y :: ys =>
    if x.toNat < y.toNat then true
    else if y.toNat < x.toNat then false
    else lexLe xs ys

/-- The sortSongs comparator (src/server.js:152-156): compare library sort
keys of the titles. -/
def songLe (a b : Song) : Bool := lexLe (librarySortKey a.title) (librarySortKey b.title)

/-- Embeds sortSongs (src/server.js:152-156): sort a copy of the list by the
library sort key of the title. -/
def sortSongs (songs : List Song) : List Song := songs.mergeSort songLe

/-- The pure core of the GET /api/search handler (src/server.js:551-585):
restrict to a list's songs when a list filter is given, filter by the parsed
query when a query is given (exact or fuzzy matcher against title or
lyrics), and return the result sorted by sortSongs. -/
def searchSongs (songs : List Song) (q : Option (List Char)) (listSongIds : Option (List String)) :
    List Song :=
  let byList :=
    match listSongIds with
    | some ids => songs.filter fun s => ids.contains s.id
    | none => songs
  let filtered :=
    match q with
    | none => byList
    | some query =>
      let parsed := parseSearchQuery query
      match parsed.type with
      | QueryType.exact =>
        byList.filter fun s => exactMatch s.title parsed.term || exactMatch s.lyrics parsed.term
      | QueryType.fuzzy =>
        byList.filter fun s => fuzzyMatch s.title parsed.term || fuzzyMatch s.lyrics parsed.term
  sortSongs filtered

/-! ### Null-tolerance model for the search core (claim C5) -/

/-- A JavaScript value handed to the matchers as text: either an actual
string or null/undefined (a record with the field missing). -/
inductive JsText where
  | str : List Char → JsText
  | nullish : JsText
deriving DecidableEq, Repr

/-- fuzzyMatch as invoked on a raw record field: on a string it returns the
boolean; on null/undefined the very first step, normalizeWhitespace's method
call .replace on the text, throws a TypeError, modeled as an error result. -/
def fuzzyMatchJs (text : JsText) (query : List Char) : Except String Bool :=
  match text with
  | JsText.str s => Except.ok (fuzzyMatch s query)
  | JsText.nullish => Except.error "TypeError"

/-- exactMatch as invoked on a raw record field; same failure mode as
fuzzyMatchJs on null/undefined. -/
def exactMatchJs (text : JsText) (query : List Char) : Except String Bool :=
  match text with
  | JsText.str s => Except.ok (exactMatch s query)
  | JsText.nullish => Except.error "TypeError"

/-! ### Rate limiting (src/server.js, checkRateLimit / recordFailedAttempt) -/

/-- The per-identifier entry of the loginAttempts map: count of failures and
the timestamp (milliseconds) of the first failure of the window. -/
structure AttemptWindow where
  count : Nat
  firstAttempt : Nat
deriving DecidableEq, Repr

/-- The loginAttempts map (src/server.js:35), as a function from client
identifiers to optional windows. -/
def AttemptMap : Type := String → Option AttemptWindow

/-- Embeds MAX_ATTEMPTS (src/server.js:36). -/
def MAX_ATTEMPTS : Nat := 5

/-- Embeds LOCKOUT_TIME (src/server.js:37): 15 minutes in milliseconds. -/
def LOCKOUT_TIME : Nat := 15 * 60 * 1000

/-- The result of checkRateLimit: allowed, with the remaining lockout
minutes when denied. -/
structure RateLimitResult where
  allowed : Bool
  remaining : Option Nat
deriving DecidableEq, Repr

/-- Embeds checkRateLimit (src/server.js:47-65), returning the result
together with the (possibly updated) loginAttempts map. Timestamps are
naturals, windows being created at or before the current time. The source
computes Math.ceil of the remaining milliseconds divided by 1000 then by 60;
for whole milliseconds up to the lockout length the two floating-point
divisions are exact enough that this is the exact ceiling of division by
60000, written here as natural ceiling division. -/
def checkRateLimit (now : Nat) (loginAttempts : AttemptMap) (ip : String) :
    RateLimitResult × AttemptMap :=
  match loginAttempts ip with
  | none => (⟨true, none⟩, loginAttempts)
  | some attempts =>
    if LOCKOUT_TIME < now - attempts.firstAttempt then
      (⟨true, none⟩, fun j => if j = ip then none else loginAttempts j)
    else if MAX_ATTEMPTS ≤ attempts.count then
      (⟨false, some ((LOCKOUT_TIME - (now - attempts.firstAttempt) + 59999) / 60000)⟩,
        loginAttempts)
    else (⟨true, none⟩, loginAttempts)

/-- Embeds recordFailedAttempt (src/server.js:67-76): create a fresh window
with count 1 at the current time, or increment the existing window's count
in place. -/
def recordFailedAttempt (now : Nat) (loginAttempts : AttemptMap) (ip : String) : AttemptMap :=
  match loginAttempts ip with
  | none => fun j => if j = ip then some ⟨1, now⟩ else loginAttempts j
  | some attempts =>
    fun j => if j = ip then some ⟨attempts.count + 1, attempts.firstAttempt⟩ else loginAttempts j

/-! ### Credential verification and migration (src/server.js, login handler) -/

/-- The stored admin credential (data.admin): the password field holds either
the plain-text password (no salt) or the salted hash (salt present). -/
structure Credential where
  password : String
  salt : Option String
deriving DecidableEq, Repr

/-- The outcome of a verification: validity, plus the migrated credential the
handler persists when a plain-text credential was verified successfully. -/
structure VerifyResult where
  valid : Bool
  migrated : Option Credential
deriving DecidableEq, Repr

/-- The credential-checking core of the POST /api/auth/login handler
(src/server.js:176-204). The key-derivation function hashPassword
(crypto.pbkdf2Sync rendered as hex, src/server.js:39-41) and the freshly
generated random salt (generateSalt, src/server.js:43-45) are abstracted as
parameters, since they wrap library primitives. With a salt present the
candidate is hashed with the stored salt and compared to the stored hash;
without a salt the candidate is compared directly and, on success, the
credential is migrated to a salted hash under the fresh salt. -/
def verifyLogin (hashPassword : String → String → String) (freshSalt : String)
    (admin : Credential) (password : String) : VerifyResult :=
  match admin.salt with
  | some salt => ⟨decide (hashPassword password salt = admin.password), none⟩
  | none =>
    if password = admin.password then
      ⟨true, some ⟨hashPassword password freshSalt, some freshSalt⟩⟩
    else ⟨false, none⟩

/-! ### Concrete inputs used by witnesses -/

/-- A concrete attempts map holding one window. -/
def demoMap : AttemptMap :=
  fun ip => if ip = "203.0.113.9" then some ⟨5, 1000⟩ else none

/-- A concrete attempts map holding one small window. -/
def demoMapSmall : AttemptMap :=
  fun ip => if ip = "203.0.113.9" then some ⟨2, 1000⟩ else none

/-- A concrete stand-in for the abstract key-derivation function, injective
on its password argument for distinct demo passwords. -/
def demoHash : String → String → String := fun password salt => password ++ ":" ++ salt

/-! ### Levenshtein distance properties (claim C7) -/

/-- With the empty string on the right, the distance is the length of the
left string, independent of fuel. -/
theorem levAux_nil_right (f : Nat) (a : List Char) : levAux f a [] = a.length := by
  cases a <;> cases f <;> simp [levAux]

/-- The distance from a string to itself is zero, given enough fuel. -/
theorem levAux_self (f : Nat) (a : List Char) (h : a.length ≤ f) : levAux f a a = 0 := by
  induction f generalizing a with
  | zero =>
    cases a with
    | nil => simp [levAux]
    | cons x xs => simp at h
  | succ f ih =>
    cases a with
    | nil => simp [levAux]
    | cons x xs =>
      simp only [levAux, if_pos rfl]
      exact ih xs (by simp at h; omega)

/-- Symmetry of the distance recurrence, given enough fuel. -/
theorem levAux_comm (f : Nat) (a b : List Char) (h : a.length + b.length ≤ f) :
    levAux f a b = levAux f b a := by
  induction f generalizing a b with
  | zero =>
    cases a with
    | nil => simp [levAux, levAux_nil_right]
    | cons x xs =>
      cases b with
      | nil => simp [levAux, levAux_nil_right]
      | cons y ys => simp at h
  | succ f ih =>
    cases a with
    | nil => simp [levAux, levAux_nil_right]
    | cons x xs =>
      cases b with
      | nil => simp [levAux, levAux_nil_right]
      | cons y ys =>
        simp only [List.length_cons] at h
        by_cases hxy : x = y
        · subst hxy
          simp only [levAux, if_pos rfl]
          exact ih xs ys (by omega)
        · simp only [levAux, if_neg hxy, if_neg (Ne.symm hxy)]
          rw [ih xs ys (by omega), ih (x :: xs) ys (by simp; omega),
            ih xs (y :: ys) (by simp; omega)]
          omega

/-- C7: levenshteinDistance computes standard unit-cost Levenshtein distance:
it is zero on equal strings, symmetric, equals the length of the other
string when one string is empty, and gives 3 on the classical
kitten/sitting example. -/
theorem levenshteinDistance_properties :
    (∀ a : List Char, levenshteinDistance a a = 0) ∧
    (∀ a b : List Char, levenshteinDistance a b = levenshteinDistance b a) ∧
    (∀ s : List Char, levenshteinDistance [] s = s.length) ∧
    levenshteinDistance "kitten".data "sitting".data = 3 := by
  refine ⟨?_, ?_, ?_, ?_⟩
  · intro a
    exact levAux_self _ a (by omega)
  · intro a b
    unfold levenshteinDistance
    rw [levAux_comm _ a b (Nat.le_refl _), Nat.add_comm a.length b.length]
  · intro s
    simp [levenshteinDistance, levAux]
  · decide

/-! ### Rate limiter: failed-attempt recording (claim C10) -/

/-- C10: on an identifier with an existing window, recordFailedAttempt
increments that window's count by exactly one, keeps its firstAttempt
timestamp, and leaves every other identifier's entry unchanged; in
particular the window is never deleted or reset, no matter how old it is
(the timestamp argument is unconstrained, so this covers expired windows). -/
theorem recordFailedAttempt_existing (now : Nat) (m : AttemptMap) (ip : String)
    (w : AttemptWindow) (h : m ip = some w) :
    recordFailedAttempt now m ip ip = some ⟨w.count + 1, w.firstAttempt⟩ ∧
    (∀ j, j ≠ ip → recordFailedAttempt now m ip j = m j) := by
  unfold recordFailedAttempt
  rw [h]
  constructor
  · simp
  · intro j hj
    simp [hj]

/-- Witness for C10 at a concrete map: the tracked identifier's count goes
from 5 to 6 with its timestamp kept, and an untracked identifier stays
absent, even though the window is long expired at the given time. -/
theorem recordFailedAttempt_existing_witness :
    recordFailedAttempt 999999999 demoMap "203.0.113.9" "203.0.113.9" = some ⟨6, 1000⟩ ∧
    recordFailedAttempt 999999999 demoMap "203.0.113.9" "198.51.100.1" = none := by
  have h := recordFailedAttempt_existing 999999999 demoMap "203.0.113.9" ⟨5, 1000⟩ (by decide)
  refine ⟨h.1, ?_⟩
  rw [h.2 "198.51.100.1" (by decide)]
  decide

/-! ### Credential verification and migration (claim C3) -/

/-- C3: verifying the correct plain-text password against a salt-less
credential yields valid with a migrated credential carrying the fresh salt
and the hash of the password under that salt; re-verifying the same password
against the migrated credential yields valid again with no further
migration; and verifying a wrong password against a salted credential (under
the assumption that the key-derivation function separates the two passwords
on that salt) yields invalid with no migration. -/
theorem verifyLogin_migration (hashPassword : String → String → String)
    (freshSalt laterSalt plainPassword wrongPassword storedSalt : String)
    (hne : hashPassword wrongPassword storedSalt ≠ hashPassword plainPassword storedSalt) :
    verifyLogin hashPassword freshSalt ⟨plainPassword, none⟩ plainPassword
      = ⟨true, some ⟨hashPassword plainPassword freshSalt, some freshSalt⟩⟩ ∧
    verifyLogin hashPassword laterSalt ⟨hashPassword plainPassword freshSalt, some freshSalt⟩
      plainPassword = ⟨true, none⟩ ∧
    verifyLogin hashPassword laterSalt ⟨hashPassword plainPassword storedSalt, some storedSalt⟩
      wrongPassword = ⟨false, none⟩ := by
  refine ⟨?_, ?_, ?_⟩
  · simp [verifyLogin]
  · simp [verifyLogin]
  · simp [verifyLogin, hne]

/-- Witness for C3 with a concrete injective stand-in for the key-derivation
function: the full migration round trip at concrete passwords and salts. -/
theorem verifyLogin_migration_witness :
    verifyLogin demoHash "salt1" ⟨"hunter2", none⟩ "hunter2"
      = ⟨true, some ⟨demoHash "hunter2" "salt1", some "salt1"⟩⟩ ∧
    verifyLogin demoHash "salt2" ⟨demoHash "hunter2" "salt1", some "salt1"⟩ "hunter2"
      = ⟨true, none⟩ ∧
    verifyLogin demoHash "salt2" ⟨demoHash "hunter2" "salt1", some "salt1"⟩ "letmein"
      = ⟨false, none⟩ :=
  verifyLogin_migration demoHash "salt1" "salt2" "hunter2" "letmein" "salt1" (by decide)

/-! ### Null fields make the matchers throw (claim C5) -/

/-- Counterexample to C5: on a record whose text field is null/absent the
matchers raise a TypeError instead of returning a boolean; treating the
missing text as the empty string would instead have returned false for a
non-empty query. -/
theorem searchMatchers_null_counterexample :
    fuzzyMatchJs JsText.nullish ['a'] = Except.error "TypeError" ∧
    exactMatchJs JsText.nullish ['a'] = Except.error "TypeError" ∧
    fuzzyMatch [] ['a'] = false ∧
    exactMatch [] ['a'] = false := by
  refine ⟨rfl, rfl, by decide, by decide⟩

/-- C5 as amended: the matchers return a boolean exactly on string inputs;
a null/absent text field is not treated as the empty string but makes the
call fail. -/
theorem searchMatchers_ok_iff_string (t : JsText) (q : List Char) :
    ((∃ b, fuzzyMatchJs t q = Except.ok b) ↔ t ≠ JsText.nullish) ∧
    ((∃ b, exactMatchJs t q = Except.ok b) ↔ t ≠ JsText.nullish) := by
  cases t <;> simp [fuzzyMatchJs, exactMatchJs]

/-! ### Rate limiter: checkRateLimit (claim C2) -/

/-- C2: with the documented constants, checkRateLimit allows an identifier
with no window; deletes an expired window (strictly older than the lockout)
and allows; denies a full window inside the lockout, reporting the remaining
minutes as the ceiling of the remaining milliseconds over one minute; and
allows otherwise. Timestamps are naturals with the window start at or before
the current time. -/
theorem checkRateLimit_spec (now : Nat) (m : AttemptMap) (ip : String) :
    MAX_ATTEMPTS = 5 ∧ LOCKOUT_TIME = 15 * 60 * 1000 ∧
    (m ip = none → checkRateLimit now m ip = (⟨true, none⟩, m)) ∧
    (∀ w : AttemptWindow, m ip = some w → LOCKOUT_TIME < now - w.firstAttempt →
      checkRateLimit now m ip = (⟨true, none⟩, fun j => if j = ip then none else m j)) ∧
    (∀ w : AttemptWindow, m ip = some w → w.firstAttempt ≤ now →
      now - w.firstAttempt ≤ LOCKOUT_TIME → MAX_ATTEMPTS ≤ w.count →
      checkRateLimit now m ip =
        (⟨false, some ((LOCKOUT_TIME - (now - w.firstAttempt)) ⌈/⌉ 60000)⟩, m)) ∧
    (∀ w : AttemptWindow, m ip = some w → now - w.firstAttempt ≤ LOCKOUT_TIME →
      w.count < MAX_ATTEMPTS →
      checkRateLimit now m ip = (⟨true, none⟩, m)) := by
  refine ⟨rfl, rfl, ?_, ?_, ?_, ?_⟩
  · intro h
    unfold checkRateLimit
    rw [h]
  · intro w hw hexp
    unfold checkRateLimit
    rw [hw]
    simp [hexp]
  · intro w hw _ hin hcnt
    simp only [checkRateLimit, hw]
    rw [if_neg (by omega), if_pos hcnt]
    have : LOCKOUT_TIME - (now - w.firstAttempt) + 59999
        = LOCKOUT_TIME - (now - w.firstAttempt) + 60000 - 1 := by omega
    rw [Nat.ceilDiv_eq_add_pred_div, this]
  · intro w hw hin hcnt
    simp only [checkRateLimit, hw]
    rw [if_neg (by omega), if_neg (by omega)]

/-- Witness for C2 at a concrete locked window: five failures recorded at
millisecond 1000, checked at millisecond 2000, deny with 15 minutes
remaining. -/
theorem checkRateLimit_spec_witness :
    (checkRateLimit 2000 demoMap "203.0.113.9").1 = ⟨false, some 15⟩ := by
  have h := (checkRateLimit_spec 2000 demoMap "203.0.113.9").2.2.2.2.1 ⟨5, 1000⟩
    (by decide) (by decide) (by decide) (by decide)
  rw [h]
  norm_num [Nat.ceilDiv_eq_add_pred_div, LOCKOUT_TIME]

/-! ### Query parsing (claim C4) -/

/-- Counterexample to C4: the three-character string quote-space-quote starts
and ends with a double quote and its inner text strips to the empty string,
so the claim demands a fuzzy parse of the original string; the source's
pattern nevertheless matches it (the dot matches a space) and produces an
exact parse with the single-space term. -/
theorem parseSearchQuery_counterexample :
    parseSearchQuery ['"', ' ', '"'] = ⟨QueryType.exact, [' ']⟩ ∧
    parseSearchQuery ['"', ' ', '"'] ≠ ⟨QueryType.fuzzy, ['"', ' ', '"']⟩ ∧
    normalizeWhitespace [' '] = [] := by
  decide

/-- C4 as amended: the parse is exact precisely when the string has length
at least 3, starts and ends with a double quote, and its interior (which is
then non-empty but may be all whitespace) contains no line terminator; the
exact term is the interior, and in every other case the parse is fuzzy with
the original string unchanged. -/
theorem parseSearchQuery_amended (query : List Char) :
    ((parseSearchQuery query).type = QueryType.exact ↔
      3 ≤ query.length ∧ query.head? = some '"' ∧ query.getLast? = some '"' ∧
        ∀ c ∈ (query.drop 1).dropLast, isLineTerminator c = false) ∧
    ((parseSearchQuery query).type = QueryType.exact →
      (parseSearchQuery query).term = (query.drop 1).dropLast) ∧
    ((parseSearchQuery query).type = QueryType.fuzzy →
      (parseSearchQuery query).term = query) := by
  unfold parseSearchQuery
  split
  case isTrue h => simpa using h
  case isFalse h => simpa using h

/-- Witness for C4's amended claim at concrete inputs: a quoted word parses
exact with the quotes removed, via the characterization. -/
theorem parseSearchQuery_amended_witness :
    (parseSearchQuery ['"', 'h', 'i', '"']).type = QueryType.exact ∧
    (parseSearchQuery ['"', 'h', 'i', '"']).term = ['h', 'i'] := by
  refine ⟨(parseSearchQuery_amended _).1.mpr (by decide), ?_⟩
  have h := (parseSearchQuery_amended (['"', 'h', 'i', '"'] : List Char)).2.1
    ((parseSearchQuery_amended _).1.mpr (by decide))
  simpa using h

/-! ### Short-word allowance inside multi-word fuzzy queries (claim C9) -/

/-- C9: the per-word allowance is always at least one edit, so once the
whole normalized query is longer than 2 characters even a 1- or 2-character
query word tolerates one edit against a text word of similar length: the
word ax matches the text word ox without being contained in it, and the
multi-word query ax stone matches the text ox stune although it is not a
substring; by contrast a query whose whole normalized form has length at
most 2 matches exactly when it is a substring of the normalized text. -/
theorem fuzzyMatch_short_word_allowance :
    (∀ w : List Char, 1 ≤ maxDistance w) ∧
    wordFuzzyMatch ['a', 'x'] ['o', 'x'] = true ∧
    includes ['o', 'x'] ['a', 'x'] = false ∧
    fuzzyMatch "ox stune".data "ax stone".data = true ∧
    includes (normalizeLower "ox stune".data) (normalizeLower "ax stone".data) = false ∧
    (∀ text query : List Char, (normalizeLower query).length ≤ 2 →
      fuzzyMatch text query = includes (normalizeLower text) (normalizeLower query)) := by
  refine ⟨?_, by decide, by decide, by decide, by decide, ?_⟩
  · intro w
    exact le_max_left _ _
  · intro text query h
    unfold fuzzyMatch
    cases hin : includes (normalizeLower text) (normalizeLower query) <;> simp [hin, h]

/-- Witness for C9's short-query clause at a concrete non-matching pair: the
whole query zz has normalized length 2, so the match reduces to substring
containment and fails. -/
theorem fuzzyMatch_short_word_allowance_witness :
    fuzzyMatch ['a', 'b'] ['z', 'z'] = false := by
  have h := fuzzyMatch_short_word_allowance.2.2.2.2.2 ['a', 'b'] ['z', 'z'] (by decide)
  rw [h]
  decide

/-! ### Full functional specification of fuzzyMatch (claim C1) -/

/-- A query word fuzzy-matches a text word exactly when the text word
contains it, or the lengths differ by at most 2 and the Levenshtein distance
is within the allowance max(1, floor of 15 percent of the query word's
length). -/
theorem wordFuzzyMatch_iff (w t : List Char) :
    wordFuzzyMatch w t = true ↔
      w <:+: t ∨ (((t.length : Int) - (w.length : Int)).natAbs ≤ 2 ∧
        levenshteinDistance w t ≤ max 1 (w.length * 3 / 20)) := by
  unfold wordFuzzyMatch includes maxDistance
  simp only [decide_eq_true_eq]
  by_cases h1 : w <:+: t
  · simp [h1]
  · rw [if_neg h1]
    by_cases h2 : ((t.length : Int) - (w.length : Int)).natAbs ≤ 2
    · simp [h1, h2]
    · simp [h1, h2]

/-- C1: fuzzyMatch holds exactly when, after whitespace normalization and
lowercasing of both inputs, the query is a substring of the text, or the
query is longer than 2 characters and every space-separated query word
fuzzy-matches (containment, or bounded length difference plus bounded
Levenshtein distance) at least one text word. -/
theorem fuzzyMatch_spec (text query : List Char) :
    fuzzyMatch text query = true ↔
      (normalizeLower query <:+: normalizeLower text ∨
        (2 < (normalizeLower query).length ∧
          ∀ w ∈ splitWords (normalizeLower query),
            ∃ t ∈ splitWords (normalizeLower text),
              w <:+: t ∨ (((t.length : Int) - (w.length : Int)).natAbs ≤ 2 ∧
                levenshteinDistance w t ≤ max 1 (w.length * 3 / 20)))) := by
  unfold fuzzyMatch
  simp only [includes, decide_eq_true_eq]
  by_cases h1 : normalizeLower query <:+: normalizeLower text
  · simp [h1]
  · rw [if_neg h1]
    by_cases h2 : (normalizeLower query).length ≤ 2
    · rw [if_pos h2]
      simp only [Bool.false_eq_true, false_iff]
      rintro (h | ⟨hlen, -⟩)
      · exact h1 h
      · omega
    · rw [if_neg h2]
      rw [List.all_eq_true]
      constructor
      · intro h
        refine Or.inr ⟨by omega, fun w hw => ?_⟩
        have hx := h w hw
        rw [List.any_eq_true] at hx
        obtain ⟨t, ht, hmatch⟩ := hx
        exact ⟨t, ht, (wordFuzzyMatch_iff w t).mp hmatch⟩
      · intro h w hw
        rw [List.any_eq_true]
        rcases h with h | ⟨hlen, hall⟩
        · exact absurd h h1
        · obtain ⟨t, ht, hmatch⟩ := hall w hw
          exact ⟨t, ht, (wordFuzzyMatch_iff w t).mpr hmatch⟩

/-! ### Search output ordering (claim C6) -/

/-- Characterization of the code-point comparison on nonempty lists. -/
theorem lexLe_cons (x y : Char) (xs ys : List Char) :
    lexLe (x :: xs) (y :: ys) = true ↔
      x.toNat < y.toNat ∨ (x.toNat = y.toNat ∧ lexLe xs ys = true) := by
  simp only [lexLe]
  by_cases h1 : x.toNat < y.toNat
  · simp [h1]
  · by_cases h2 : y.toNat < x.toNat
    · simp [h1, h2]
      omega
    · have hxy : x.toNat = y.toNat := by omega
      simp [h1, h2, hxy]

/-- The code-point comparison of sort keys is total. -/
theorem lexLe_total (a b : List Char) : lexLe a b = true ∨ lexLe b a = true := by
  induction a generalizing b with
  | nil => exact Or.inl rfl
  | cons x xs ih =>
    cases b with
    | nil => exact Or.inr rfl
    | cons y ys =>
      rw [lexLe_cons, lexLe_cons]
      by_cases h1 : x.toNat < y.toNat
      · exact Or.inl (Or.inl h1)
      · by_cases h2 : y.toNat < x.toNat
        · exact Or.inr (Or.inl h2)
        · rcases ih ys with h | h
          · exact Or.inl (Or.inr ⟨by omega, h⟩)
          · exact Or.inr (Or.inr ⟨by omega, h⟩)

/-- The code-point comparison of sort keys is transitive. -/
theorem lexLe_trans (a b c : List Char) (hab : lexLe a b = true) (hbc : lexLe b c = true) :
    lexLe a c = true := by
  induction a generalizing b c with
  | nil => rfl
  | cons x xs ih =>
    cases b with
    | nil => simp [lexLe] at hab
    | cons y ys =>
      cases c with
      | nil => simp [lexLe] at hbc
      | cons z zs =>
        rw [lexLe_cons] at hab hbc ⊢
        rcases hab with hab | ⟨hab, hab2⟩
        · rcases hbc with hbc | ⟨hbc, -⟩
          · exact Or.inl (by omega)
          · exact Or.inl (by omega)
        · rcases hbc with hbc | ⟨hbc, hbc2⟩
          · exact Or.inl (by omega)
          · exact Or.inr ⟨by omega, ih ys zs hab2 hbc2⟩

/-- Sorting a song list with the sortSongs comparator yields a list that is
pairwise ordered by the library sort key. -/
theorem mergeSort_songLe_sorted (l : List Song) :
    (l.mergeSort songLe).Pairwise
      (fun a b => lexLe (librarySortKey a.title) (librarySortKey b.title) = true) := by
  have htrans : ∀ a b c : Song, songLe a b = true → songLe b c = true → songLe a c = true :=
    fun a b c hab hbc => lexLe_trans _ _ _ hab hbc
  have htotal : ∀ a b : Song, (songLe a b || songLe b a) = true := by
    intro a b
    rcases lexLe_total (librarySortKey a.title) (librarySortKey b.title) with h | h <;>
      simp [songLe, h]
  have h : (l.mergeSort songLe).Pairwise (fun a b => songLe a b = true) :=
    List.sorted_mergeSort htrans htotal l
  exact h

/-- C6: for every input record sequence, optional raw query, and optional
list filter, the output of the search route is sorted by the library sort
key of the title (lowercased title with one leading article removed,
compared by code point), whatever the input order was. -/
theorem searchSongs_sorted (songs : List Song) (q : Option (List Char))
    (listSongIds : Option (List String)) :
    (searchSongs songs q listSongIds).Pairwise
      (fun a b => lexLe (librarySortKey a.title) (librarySortKey b.title) = true) := by
  unfold searchSongs sortSongs
  exact mergeSort_songLe_sorted _

/-! ### Substring monotonicity of exact matching (claim C8) -/

/-- Starting a collapse inside a whitespace run yields a suffix (it omits at
most the one space that a fresh run would emit). -/
theorem collapseAux_true_suf (l : List Char) :
    collapseAux true l <:+ collapseAux false l := by
  cases l with
  | nil => exact List.nil_suffix
  | cons d l' =>
    by_cases hd : jsWhitespace d
    · simp only [collapseAux, hd, if_true]
      exact List.suffix_cons ' ' _
    · simp only [collapseAux, hd, Bool.false_eq_true, if_false]
      exact List.suffix_refl _

/-- Collapsing a list is a prefix of collapsing any extension of it, for
either starting state. -/
theorem collapseAux_append_pre (a b : List Char) :
    ∀ flag, collapseAux flag a <+: collapseAux flag (a ++ b) := by
  induction a with
  | nil =>
    intro flag
    exact List.nil_prefix
  | cons c a' ih =>
    intro flag
    by_cases hc : jsWhitespace c
    · cases flag
      · simp only [List.cons_append, collapseAux, hc, if_true]
        exact List.cons_prefix_cons.mpr ⟨rfl, ih true⟩
      · simp only [List.cons_append, collapseAux, hc, if_true]
        exact ih true
    · simp only [List.cons_append, collapseAux, hc, Bool.false_eq_true, if_false]
      exact List.cons_prefix_cons.mpr ⟨rfl, ih false⟩

/-- Collapsing a list starting inside a run is a suffix of collapsing any
left extension of it, for either starting state. -/
theorem collapseAux_append_suf (a b : List Char) :
    ∀ flag, collapseAux true b <:+ collapseAux flag (a ++ b) := by
  induction a with
  | nil =>
    intro flag
    cases flag
    · exact collapseAux_true_suf b
    · exact List.suffix_refl _
  | cons c a' ih =>
    intro flag
    by_cases hc : jsWhitespace c
    · cases flag
      · simp only [List.cons_append, collapseAux, hc, if_true]
        exact (ih true).trans (List.suffix_cons ' ' _)
      · simp only [List.cons_append, collapseAux, hc, if_true]
        exact ih true
    · simp only [List.cons_append, collapseAux, hc, Bool.false_eq_true, if_false]
      exact (ih false).trans (List.suffix_cons c _)

/-- After trimming, the starting state of the collapse does not matter: the
two results differ by at most a leading space. -/
theorem jsTrim_collapseAux_true (l : List Char) :
    jsTrim (collapseAux true l) = jsTrim (collapseAux false l) := by
  cases l with
  | nil => rfl
  | cons d l' =>
    by_cases hd : jsWhitespace d
    · have h1 : collapseAux true (d :: l') = collapseAux true l' := by simp [collapseAux, hd]
      have h2 : collapseAux false (d :: l') = ' ' :: collapseAux true l' := by
        simp [collapseAux, hd]
      rw [h1, h2]
      unfold jsTrim dropLeadWS
      rw [List.dropWhile_cons, if_pos (by decide)]
    · have h1 : collapseAux true (d :: l') = d :: collapseAux false l' := by simp [collapseAux, hd]
      have h2 : collapseAux false (d :: l') = d :: collapseAux false l' := by
        simp [collapseAux, hd]
      rw [h1, h2]

/-- Dropping leading whitespace preserves the prefix relation. -/
theorem dropLeadWS_mono_pre {x y : List Char} (h : x <+: y) :
    dropLeadWS x <+: dropLeadWS y := by
  obtain ⟨r, rfl⟩ := h
  unfold dropLeadWS
  rw [List.dropWhile_append]
  split
  case isTrue h =>
    rw [List.isEmpty_iff] at h
    rw [h]
    exact List.nil_prefix
  case isFalse h => exact List.prefix_append _ _

/-- Dropping leading whitespace preserves the suffix relation. -/
theorem dropLeadWS_mono_suf {x y : List Char} (h : x <:+ y) :
    dropLeadWS x <:+ dropLeadWS y := by
  obtain ⟨r, rfl⟩ := h
  unfold dropLeadWS
  rw [List.dropWhile_append]
  split
  · exact List.suffix_refl _
  · exact (List.dropWhile_suffix _).trans (List.suffix_append _ _)

/-- Dropping trailing whitespace preserves the prefix relation. -/
theorem dropTrailWS_mono_pre {x y : List Char} (h : x <+: y) :
    dropTrailWS x <+: dropTrailWS y := by
  obtain ⟨r, rfl⟩ := h
  unfold dropTrailWS
  rw [List.reverse_append, List.dropWhile_append]
  split
  · exact List.prefix_refl _
  · rw [List.reverse_append, List.reverse_reverse]
    have h1 : (List.dropWhile jsWhitespace x.reverse).reverse <+: x := by
      have h2 := (List.dropWhile_suffix (l := x.reverse) jsWhitespace).reverse
      rwa [List.reverse_reverse] at h2
    exact h1.trans (List.prefix_append _ _)

/-- Dropping trailing whitespace preserves the suffix relation. -/
theorem dropTrailWS_mono_suf {x y : List Char} (h : x <:+ y) :
    dropTrailWS x <:+ dropTrailWS y := by
  obtain ⟨r, rfl⟩ := h
  unfold dropTrailWS
  rw [List.reverse_append, List.dropWhile_append]
  split
  case isTrue h =>
    rw [List.isEmpty_iff] at h
    rw [h]
    exact List.nil_suffix
  case isFalse h =>
    rw [List.reverse_append, List.reverse_reverse]
    exact List.suffix_append _ _

/-- Trimming preserves the prefix relation. -/
theorem jsTrim_mono_pre {x y : List Char} (h : x <+: y) : jsTrim x <+: jsTrim y :=
  dropTrailWS_mono_pre (dropLeadWS_mono_pre h)

/-- Trimming preserves the suffix relation. -/
theorem jsTrim_mono_suf {x y : List Char} (h : x <:+ y) : jsTrim x <:+ jsTrim y :=
  dropTrailWS_mono_suf (dropLeadWS_mono_suf h)

/-- The normalization of a list is a prefix of the normalization of any
right extension. -/
theorem normalizeWhitespace_append_pre (a b : List Char) :
    normalizeWhitespace a <+: normalizeWhitespace (a ++ b) :=
  jsTrim_mono_pre (collapseAux_append_pre a b false)

/-- The normalization of a list is a suffix of the normalization of any
left extension. -/
theorem normalizeWhitespace_append_suf (a b : List Char) :
    normalizeWhitespace b <:+ normalizeWhitespace (a ++ b) := by
  have h := jsTrim_mono_suf (collapseAux_append_suf a b false)
  rwa [jsTrim_collapseAux_true] at h

/-- Normalization is monotone with respect to contiguous substrings. -/
theorem normalizeWhitespace_infix_mono {q2 q : List Char} (h : q2 <:+: q) :
    normalizeWhitespace q2 <:+: normalizeWhitespace q := by
  obtain ⟨s, t, rfl⟩ := h
  have hp : normalizeWhitespace q2 <+: normalizeWhitespace (q2 ++ t) :=
    normalizeWhitespace_append_pre _ _
  have hs : normalizeWhitespace (q2 ++ t) <:+ normalizeWhitespace (s ++ (q2 ++ t)) :=
    normalizeWhitespace_append_suf _ _
  have := hp.isInfix.trans hs.isInfix
  rwa [← List.append_assoc] at this

/-- Normalization followed by lowercasing is monotone with respect to
contiguous substrings. -/
theorem normalizeLower_infix_mono {q2 q : List Char} (h : q2 <:+: q) :
    normalizeLower q2 <:+: normalizeLower q :=
  List.IsInfix.map _ (normalizeWhitespace_infix_mono h)

/-- C8: exact matching is reflexive on non-empty strings, and monotone under
contiguous substrings of the query: a match for a query implies a match for
every contiguous substring of that query. -/
theorem exactMatch_refl_monotone :
    (∀ s : List Char, s ≠ [] → exactMatch s s = true) ∧
    (∀ t q q2 : List Char, exactMatch t q = true → q2 <:+: q → exactMatch t q2 = true) := by
  constructor
  · intro s _
    simp only [exactMatch, includes, decide_eq_true_eq]
    exact List.infix_refl _
  · intro t q q2 h hsub
    simp only [exactMatch, includes, decide_eq_true_eq] at h ⊢
    exact (normalizeLower_infix_mono hsub).trans h

/-- Witness for C8 at concrete strings: reflexivity on a one-character
string, and monotonicity from a two-character query down to its second
character. -/
theorem exactMatch_refl_monotone_witness :
    exactMatch ['a'] ['a'] = true ∧ exactMatch ['a', 'b'] ['b'] = true :=
  ⟨exactMatch_refl_monotone.1 ['a'] (by decide),
   exactMatch_refl_monotone.2 ['a', 'b'] ['a', 'b'] ['b'] (by decide) (by decide)⟩
